import Mathlib

/-!
Verification of the publication-retrieval and normalization pipeline of the
autobib VS Code extension (src/extension.ts, the DBLP-enabled variant).

The TypeScript source is shallowly embedded: JavaScript strings are Lean
`String`s, and the JavaScript string operations the source uses
(`split(sep)` with a one-character separator, `join(sep)`, `match(/^\d+$/)`,
`match(/\d{4}/)`, `substring`, `replace(/ /g, "_")`, `toLowerCase`,
`parseInt`) are modelled by executable functions over `List Char` below.
Fallible JavaScript accesses (indexing past the end of an array, member
access on `undefined`) are modelled with `Option`.
-/

/-- JavaScript `s.split(sep)` for a one-character separator: splits on every
occurrence of `sep`, keeping empty fragments, and always returns at least one
fragment (the empty string splits to one empty fragment). -/
def splitOnCh (sep : Char) : List Char → List (List Char)
  | [] => [[]]
  | c :: rest =>
      let r := splitOnCh sep rest
      if c = sep then [] :: r
      else (c :: r.headD []) :: r.tail

/-- JavaScript `parts.join(sep)` for a list of fragments. -/
def joinWith (sep : List Char) : List (List Char) → List Char
  | [] => []
  | [t] => t
  | t :: u :: ts => t ++ sep ++ joinWith sep (u :: ts)

/-- JavaScript `lastName.match(/^\d+$/) !== null`: the token is non-empty and
consists only of decimal digits. -/
def isNumericTok (t : List Char) : Bool := !t.isEmpty && t.all Char.isDigit

/-- JavaScript `authorParts.pop()` guarded by the numeric-last-token test:
drops the final fragment when it is purely numeric, otherwise keeps the list
unchanged. -/
def popNumericLast : List (List Char) → List (List Char)
  | [] => []
  | [t] => if isNumericTok t then [] else [t]
  | t :: u :: ts => t :: popNumericLast (u :: ts)

/-- JavaScript `str.match(/\d{4}/)?.[0]`: the first run of four consecutive
decimal digits in the string, scanning left to right. -/
def find4Digits : List Char → Option (List Char)
  | a :: b :: c :: d :: rest =>
      if a.isDigit && b.isDigit && c.isDigit && d.isDigit then some [a, b, c, d]
      else find4Digits (b :: c :: d :: rest)
  | _ => none

/-- The author-suffix stripping step shared by `transformPublication` and the
body of `searchQueryHandler` (src/extension.ts lines 425-436): split the
author on single spaces; a single-token name passes through unchanged;
otherwise drop the final token when it is purely numeric and rejoin with
single spaces. -/
def stripAuthorSuffix (s : String) : String :=
  match splitOnCh ' ' s.data with
  | [] => s
  | [t] => ⟨t⟩
  | t :: u :: ts => ⟨joinWith [' '] (popNumericLast (t :: u :: ts))⟩

/-- The uppercase-to-lowercase table for the ASCII letters. -/
def lowerPairs : List (Char × Char) :=
  [('A', 'a'), ('B', 'b'), ('C', 'c'), ('D', 'd'), ('E', 'e'), ('F', 'f'),
   ('G', 'g'), ('H', 'h'), ('I', 'i'), ('J', 'j'), ('K', 'k'), ('L', 'l'),
   ('M', 'm'), ('N', 'n'), ('O', 'o'), ('P', 'p'), ('Q', 'q'), ('R', 'r'),
   ('S', 's'), ('T', 't'), ('U', 'u'), ('V', 'v'), ('W', 'w'), ('X', 'x'),
   ('Y', 'y'), ('Z', 'z')]

/-- JavaScript `String.prototype.toLowerCase` restricted to ASCII (the only
characters the verified claims exercise): uppercase Latin letters map to
their lowercase forms, every other character is unchanged. -/
def jsToLowerChar (c : Char) : Char :=
  ((lowerPairs.find? (fun q => q.1 = c)).map Prod.snd).getD c

/-- JavaScript `s.toLowerCase()` over a whole string. -/
def toLowerStr (s : String) : String := ⟨s.data.map jsToLowerChar⟩

/-- JavaScript `s.replace(/ /g, "_")`: every space becomes an underscore. -/
def underscoreStr (s : String) : String :=
  ⟨s.data.map (fun c => if c = ' ' then '_' else c)⟩

/-- JavaScript `parseInt` in base 10 (hexadecimal prefixes are not modelled;
no verified claim involves them): skip leading whitespace, an optional sign,
then the longest prefix of decimal digits; `none` models `NaN`. -/
def leadingDigitsNat (l : List Char) : Option Nat :=
  let d := l.takeWhile Char.isDigit
  if d.isEmpty then none
  else some (d.foldl (fun n c => 10 * n + (c.toNat - 48)) 0)

/-- JavaScript `parseInt(str)` on a character list, `none` modelling `NaN`. -/
def jsParseInt (l : List Char) : Option Int :=
  match l.dropWhile Char.isWhitespace with
  | '-' :: rest => (leadingDigitsNat rest).map (fun n => -(n : Int))
  | '+' :: rest => (leadingDigitsNat rest).map (fun n => (n : Int))
  | l1 => (leadingDigitsNat l1).map (fun n => (n : Int))

/-- Three-way ordinal string comparison by character code. It models
`a.label.localeCompare(b.label)` for the ASCII labels this development
evaluates it on; no proved claim depends on locale-specific collation. -/
def cmpChars : List Char → List Char → Int
  | [], [] => 0
  | [], _ :: _ => -1
  | _ :: _, [] => 1
  | x :: xs, y :: ys =>
      if x.toNat < y.toNat then -1
      else if y.toNat < x.toNat then 1
      else cmpChars xs ys

/-- Stable insertion of `x` into a list ordered by the comparator: `x` is
placed before the first element it does not compare greater than. -/
def insertCmp (cmp : α → α → Int) (x : α) : List α → List α
  | [] => [x]
  | y :: ys => if cmp x y ≤ 0 then x :: y :: ys else y :: insertCmp cmp x ys

/-- Stable comparator sort, modelling `Array.prototype.sort` (stable per
ES2019) for consistent comparators; every comparator this development sorts
with is consistent on the lists involved. -/
def sortCmp (cmp : α → α → Int) : List α → List α
  | [] => []
  | x :: xs => insertCmp cmp x (sortCmp cmp xs)

/-- The canonical record built by both payload parsers
(src/extension.ts `interface Publication`, DBLP variant). -/
structure Publication where
  title : String
  authors : List String
  year : String
  booktitle : String
  pages : String
  doi : String
  type : String
deriving DecidableEq, Repr

/-- A VS Code quick-pick entry: the ephemeral DisplayItem. `isSeparator`
models `kind: vscode.QuickPickItemKind.Separator`. -/
structure QuickPickItem where
  label : String
  description : Option String := none
  detail : Option String := none
  isSeparator : Bool := false
deriving DecidableEq, Repr

/-- One author element of the DBLP XML author list as xml2js materializes it:
`author._` is the display-name text, to which DBLP attaches a numeric
disambiguation suffix for some names. -/
structure DblpAuthor where
  txt : String
deriving DecidableEq, Repr

/-- The `info.authors[i]` object: a wrapper holding the `author` array. -/
structure DblpAuthors where
  author : List DblpAuthor
deriving DecidableEq, Repr

/-- The `hit.info[0]` object. xml2js wraps every present tag in an array and
leaves absent tags `undefined`; an absent tag is modelled as the empty list,
which the source treats identically (`!info.title` and
`info.title.length === 0` both lead to the same skip, and every optional
field defaults to the empty string for both). -/
structure DblpInfo where
  title : List String
  authors : List DblpAuthors
  year : List String
  venue : List String
  pages : List String
  doi : List String
  type : List String
deriving DecidableEq, Repr

/-- One `<hit>` element. xml2js always materializes the singleton `info`
array for a DBLP hit; the source reads `hit.info[0]` without a guard, so the
wrapper array is elided here. -/
structure DblpHit where
  info : DblpInfo
deriving DecidableEq, Repr

/-- The `result.hits[0]` object carrying the `hit` array (absent when DBLP
returns zero hits). -/
structure DblpHits where
  hit : Option (List DblpHit)
deriving DecidableEq, Repr

/-- The parsed XML root: `parsedXml.result.hits`. -/
structure DblpResult where
  hits : Option (List DblpHits)
deriving DecidableEq, Repr

/-- The per-hit mapper inside `parseDBLPXML` (src/extension.ts lines
236-275): skip the hit (`undefined`, modelled `none`) when title, authors or
year is absent or empty; otherwise take the head of each singleton array,
defaulting venue, pages, doi and type to the empty string. -/
def processHit (hit : DblpHit) : Option Publication :=
  let info := hit.info
  match info.title, info.authors, info.year with
  | t :: _, aobj :: _, y :: _ =>
      some { title := t
             authors := aobj.author.map (fun a => a.txt)
             year := y
             booktitle := info.venue.headD ""
             pages := info.pages.headD ""
             doi := info.doi.headD ""
             type := info.type.headD "" }
  | _, _, _ => none

/-- Model of `parseDBLPXML` (src/extension.ts lines 219-301) after the xml2js parse:
when the hits array is absent or empty, or the first hits object carries no
hit array or an empty one, return the empty list (with a "No results"
notice); otherwise map every hit and drop the skipped ones. The final
`forEach` copy loop in the source rebuilds each record field by field and is
the identity. The source also guards `!hits[0]` against a falsy element; the
model's list elements are always proper objects. -/
def parseDBLPXML (r : DblpResult) : List Publication :=
  match r.hits with
  | none => []
  | some [] => []
  | some (h0 :: _) =>
      match h0.hit with
      | none => []
      | some [] => []
      | some hits => (hits.map processHit).reduceOption

/-- One Google Scholar result block, holding the text the source extracts
with cheerio selectors: the `.gs_rt a` title text, the `.gs_a`
"authors - venue - year" line, and the optional citation-link href. -/
structure ScholarBlock where
  titleText : String
  bylineText : String
  doiHref : Option String := none
deriving DecidableEq, Repr

/-- The per-block extraction of `parseGoogleScholarHTML` (src/extension.ts
lines 172-194): authors are the comma fragments of the text before the first
"-" of the byline; the year is the first run of four digits anywhere in the
byline (empty string when there is none); the venue is the second "-"
fragment (JavaScript yields `undefined` when the byline has no "-"; modelled
as the empty string, which no verified claim observes). A block with an
empty title, zero authors, or empty year is skipped. -/
def parseScholarBlock (b : ScholarBlock) : Option Publication :=
  let segs := splitOnCh '-' b.bylineText.data
  let authors := (splitOnCh ',' (segs.headD [])).map (fun l => (⟨l⟩ : String))
  let year : String := ((find4Digits b.bylineText.data).map
    (fun l => (⟨l⟩ : String))).getD ""
  if b.titleText = "" ∨ authors.length = 0 ∨ year = "" then none
  else some { title := b.titleText
              authors := authors
              year := year
              booktitle := ⟨(segs.drop 1).headD []⟩
              pages := ""
              doi := (b.doiHref).getD ""
              type := "" }

/-- Model of `parseGoogleScholarHTML` over the result blocks the cheerio selector
`.gs_r` finds, in document order. -/
def parseGoogleScholarHTML (blocks : List ScholarBlock) : List Publication :=
  (blocks.map parseScholarBlock).reduceOption

/-- The test `publication.authors.join(", ").length > 80` (src/extension.ts line 339),
computed on the stored author strings. -/
def isAuthorListTooLong (p : Publication) : Bool :=
  decide (80 < (joinWith (", ".data) (p.authors.map String.data)).length)

/-- JavaScript `authorParts[0][0]` string-concatenated into the abbreviation:
the first character of the fragment, or the text "undefined" when the
fragment is empty (JavaScript indexes past the end and coerces `undefined`
into the concatenation). -/
def jsHeadCharConcat (t : List Char) : List Char :=
  match t with
  | [] => "undefined".data
  | c :: _ => [c]

/-- The per-author display mapper inside `transformPublication`
(src/extension.ts lines 340-355): single-token names pass through; otherwise
the trailing pure-numeric token is dropped, and when the joined author list
is too long the name is abbreviated to first initial + ". " + the remaining
tokens. Note the abbreviation applies to every author, the first included. -/
def displayAuthor (tooLong : Bool) (author : String) : String :=
  match splitOnCh ' ' author.data with
  | [] => author
  | [t] => ⟨t⟩
  | t :: u :: ts =>
      let parts := popNumericLast (t :: u :: ts)
      if tooLong then
        match parts with
        | [] => ""
        | h :: rest => ⟨jsHeadCharConcat h ++ '.' :: ' ' :: joinWith [' '] rest⟩
      else ⟨joinWith [' '] parts⟩

/-- Model of `transformPublication` (src/extension.ts lines 331-362): truncate title
and venue for display when their combined length exceeds 75, and render the
author line; the label/description/detail are fresh display strings. -/
def transformPublication (p : Publication) : QuickPickItem :=
  let overLong := decide (75 < p.title.data.length + p.booktitle.data.length)
  let displayTitle : String :=
    if overLong then ⟨p.title.data.take 60⟩ ++ "..." else p.title
  let displayVenue : String :=
    if overLong then ⟨p.booktitle.data.take 15⟩ else p.booktitle
  let tooLong := isAuthorListTooLong p
  { label := displayTitle
    description := some (displayVenue ++ " " ++ p.year)
    detail := some ⟨joinWith (", ".data)
      (p.authors.map (fun a => (displayAuthor tooLong a).data))⟩
    isSeparator := false }

/-- The function `transformPublication` together with the record it leaves behind: the
source reads the publication's fields but performs no assignment to them and
no mutating array operation on `authors` (`map` copies, `pop` acts on the
local `split` result), so the stored record after the call is the input. -/
def transformPublicationS (p : Publication) : QuickPickItem × Publication :=
  (transformPublication p, p)

/-- Whether `pat` occurs at the start of `text`. -/
def startsWithChars : List Char → List Char → Bool
  | [], _ => true
  | _ :: _, [] => false
  | p :: ps, c :: cs => p = c && startsWithChars ps cs

/-- JavaScript `text.includes(pat)`: `pat` occurs contiguously in `text`. -/
def includesChars (pat : List Char) : List Char → Bool
  | [] => pat.isEmpty
  | c :: rest => startsWithChars pat (c :: rest) || includesChars pat rest

/-- The category index assigned by `categorizePublications`
(src/extension.ts lines 364-382): case-insensitive substring tests on the
type tag, conference before journal, everything else in the third bucket. -/
def categoryOf (p : Publication) : Nat :=
  if includesChars ("conference".data) (toLowerStr p.type).data then 0
  else if includesChars ("journal".data) (toLowerStr p.type).data then 1
  else 2

/-- The year key `sortByYearAndTitle` extracts from a quick-pick item
(src/extension.ts lines 386-387): `parseInt(item.description!.split(" ")[1])`.
The description of every item this is applied to is present; the non-null
assertion is modelled by defaulting to the empty string. `none` models
`NaN`. -/
def itemYearKey (it : QuickPickItem) : Option Int :=
  match (splitOnCh ' ' (it.description.getD "").data).drop 1 with
  | [] => none
  | tok :: _ => jsParseInt tok

/-- The comparator of `sortByYearAndTitle` (src/extension.ts lines 385-392):
descending by the extracted year keys when they differ, otherwise by
`localeCompare` on the labels. When either key is `NaN` the NaN-propagating
subtraction makes the comparator return `NaN`, which the ECMAScript sort
treats as 0. -/
def compareItems (a b : QuickPickItem) : Int :=
  match itemYearKey a, itemYearKey b with
  | some x, some y => if x = y then cmpChars a.label.data b.label.data else y - x
  | _, _ => 0

/-- Model of `sortByYearAndTitle` (src/extension.ts lines 384-393). -/
def sortByYearAndTitle (items : List QuickPickItem) : List QuickPickItem :=
  sortCmp compareItems items

/-- One category section of `createQuickPickOptions` (src/extension.ts lines
398-404): an empty category contributes nothing; a non-empty one contributes
one separator labelled with the category name followed by its transformed
items sorted by `sortByYearAndTitle`. -/
def categorySection (name : String) (pubs : List Publication) :
    List QuickPickItem :=
  if pubs.isEmpty then []
  else
    { label := name, description := none, detail := none, isSeparator := true }
      :: sortByYearAndTitle (pubs.map transformPublication)

/-- Model of `createQuickPickOptions` (src/extension.ts lines 330-407): partition the
search results into the three fixed categories (a `forEach` push preserving
input order, modelled by order-preserving filters) and emit the three
sections in the fixed order. -/
def createQuickPickOptions (searchResults : List Publication) :
    List QuickPickItem :=
  let confs := searchResults.filter (fun p => categoryOf p = 0)
  let journals := searchResults.filter (fun p => categoryOf p = 1)
  let others := searchResults.filter (fun p => categoryOf p = 2)
  categorySection "Conference and Workshop Papers" confs
    ++ categorySection "Journal Articles" journals
    ++ categorySection "Other Articles" others

/-- The function `createQuickPickOptions` together with the publication store it leaves
behind: the ranking stage reads the records but assigns nothing to them, so
the store after ranking is the input store. -/
def createQuickPickOptionsS (searchResults : List Publication) :
    List QuickPickItem × List Publication :=
  (createQuickPickOptions searchResults, searchResults)

/-- The pre-synthesis author-suffix-stripping pass in `searchQueryHandler`
(src/extension.ts lines 424-436): `filteredPublication` aliases
`originalPublication`, and the `authors.map(...)` over the stripping callback
is evaluated but its result is not retained (and `Array.prototype.map` does
not mutate its receiver). The pass therefore yields the publication record
unchanged, alongside the discarded stripped list. -/
def stripPassS (originalPublication : Publication) :
    Publication × List String :=
  (originalPublication, originalPublication.authors.map stripAuthorSuffix)

/-- The citation key interpolated into the entry template
(src/extension.ts line 438):
`authors[0].replace(/ /g, "_").toLowerCase()` followed by the year; `none`
models the TypeError JavaScript throws when the author array is empty. -/
def citationKey (p : Publication) : Option String :=
  p.authors.head?.map (fun a0 => toLowerStr (underscoreStr a0) ++ p.year)

/-- The join `publication.authors.join(" and ")`. -/
def authorsJoinedAnd (p : Publication) : String :=
  ⟨joinWith (" and ".data) (p.authors.map String.data)⟩

/-- The BibTeX entry template of `searchQueryHandler` (src/extension.ts lines
438-443), written here as the concatenation of its lines: it emits exactly
title, author, year and booktitle (booktitle unconditionally, pages and doi
never), opens with the key line and closes with a brace followed by the
appended newline. `none` models the throw on an empty author array. -/
def synthBibtexOpt (p : Publication) : Option String :=
  (citationKey p).map (fun key =>
    ("@inproceedings\x7b" ++ key ++ ",") ++ "\n" ++
    ("\ttitle=\x7b" ++ p.title ++ "\x7d,") ++ "\n" ++
    ("\tauthor=\x7b" ++ authorsJoinedAnd p ++ "\x7d,") ++ "\n" ++
    ("\tyear=\x7b" ++ p.year ++ "\x7d,") ++ "\n" ++
    ("\tbooktitle=\x7b" ++ p.booktitle ++ "\x7d,") ++ "\n" ++
    "\x7d" ++ "\n")

/-- The selection-resolution and synthesis loop of `searchQueryHandler`
(src/extension.ts lines 413-446), producing the entries handed to the editor
sink. A selection is given by its position in `quickPickOptions` (the VS
Code quick pick returns the selected item objects themselves, and
`quickPickOptions.indexOf(selection)` under reference equality is exactly
the selected item's position). The looked-up `searchResults[index]` is
`undefined` when the index is outside the publication array, and the
session then throws while building the entry — modelled as `none` for the
whole session. An empty or cancelled selection returns before the loop with
no entry produced. -/
def searchQueryInsertions (searchResults : List Publication)
    (selections : List Nat) : Option (List String) :=
  if selections.isEmpty then some []
  else selections.mapM (fun pos =>
    (searchResults[pos]?).bind (fun originalPublication =>
      synthBibtexOpt (stripPassS originalPublication).1))

/-- A single conference publication, used to evaluate selection
resolution. -/
def confPub : Publication :=
  { title := "Attention Is All You Need", authors := ["Ashish Vaswani"],
    year := "2017", booktitle := "NeurIPS", pages := "", doi := "",
    type := "Conference and Workshop Papers" }

/-- Two same-category publications whose venues contain a space followed by
digits, so the sort comparator's `description.split(" ")[1]` picks a venue
fragment instead of the year. -/
def spacedVenuePubNewer : Publication :=
  { title := "A", authors := ["X Y"], year := "2021", booktitle := "Conf 1000",
    pages := "", doi := "", type := "conference" }

/-- The older companion publication, whose venue fragment parses larger. -/
def spacedVenuePubOlder : Publication :=
  { title := "B", authors := ["Z W"], year := "2020", booktitle := "Conf 3000",
    pages := "", doi := "", type := "conference" }

/-- The structured-payload hit of the round-trip scenario: authors
"Ashish Vaswani 83" and "Noam Shazeer", year 2017. -/
def vaswaniInfo : DblpInfo :=
  { title := ["Attention Is All You Need"],
    authors :=
      [{ author := [{ txt := "Ashish Vaswani 83" }, { txt := "Noam Shazeer" }] }],
    year := ["2017"], venue := ["NeurIPS"], pages := [], doi := [], type := [] }

/-- The parsed XML root wrapping `vaswaniInfo` as its single hit. -/
def vaswaniResult : DblpResult :=
  { hits := some [{ hit := some [{ info := vaswaniInfo }] }] }

/-- The publication `parseDBLPXML` produces from `vaswaniResult`. -/
def vaswaniPub : Publication :=
  { title := "Attention Is All You Need",
    authors := ["Ashish Vaswani 83", "Noam Shazeer"],
    year := "2017", booktitle := "NeurIPS", pages := "", doi := "", type := "" }

/-- A publication whose joined author list exceeds 80 characters, with a
multi-token first author. -/
def longAuthorsPub : Publication :=
  { title := "Attention Is All You Need",
    authors := ["Ashish Vaswani", "Noam Shazeer", "Niki Parmar",
                "Jakob Uszkoreit", "Llion Jones", "Aidan Gomez"],
    year := "2017", booktitle := "NeurIPS", pages := "", doi := "", type := "" }

/-- A publication with an empty venue but non-empty pages and doi. -/
def pagedDoiPub : Publication :=
  { title := "T", authors := ["Ann Bee"], year := "2020", booktitle := "",
    pages := "5-10", doi := "10.1/x", type := "" }

/-- Whether the final fragment of the list is purely numeric. -/
def lastTokNumeric : List (List Char) → Bool
  | [] => false
  | [t] => isNumericTok t
  | _ :: u :: ts => lastTokNumeric (u :: ts)

/-- Whether the final two fragments of the list are both purely numeric
(false on lists with fewer than two fragments). -/
def lastTwoBothNumeric : List (List Char) → Bool
  | [x, y] => isNumericTok x && isNumericTok y
  | _ :: u :: v :: ts => lastTwoBothNumeric (u :: v :: ts)
  | _ => false

/-- The token list has at least three fragments and ends in two purely
numeric fragments — the exact situation in which one stripping pass leaves
another numeric token exposed at the end. -/
def endsInTwoNumericTokens : List (List Char) → Bool
  | x :: y :: z :: ts => lastTwoBothNumeric (x :: y :: z :: ts)
  | _ => false

/-- The XML root of a DBLP response with no hits array at all. -/
def emptyDblpResult : DblpResult := { hits := none }

/-- The year is a string of exactly four decimal digits. -/
def isFourDigitYear (y : String) : Bool :=
  decide (y.data.length = 4) && y.data.all Char.isDigit

/-- The Google Scholar block of the empty-byline-segment scenario: byline
"- ICML - 2020" has an empty author segment before the first "-". -/
def emptyBylineBlock : ScholarBlock :=
  { titleText := "T", bylineText := "- ICML - 2020", doiHref := none }

/-- C1. For a one-publication search session the display list is one
separator followed by the item built from that publication; the only
selectable (non-separator) item sits at display position 1, but the
orchestrator's positional lookup reads `searchResults[1]`, which does not
exist, so the session produces no entry instead of resolving the selection
back to the publication that built the item. This refutes the claim that
the display index always recovers the originating publication: separators
and per-category re-sorting shift display positions away from array
positions. -/
theorem selection_resolution_misses_publication :
    createQuickPickOptions [confPub] =
      [{ label := "Conference and Workshop Papers", description := none,
         detail := none, isSeparator := true },
       transformPublication confPub] ∧
    (transformPublication confPub).isSeparator = false ∧
    [confPub][1]? = none ∧
    searchQueryInsertions [confPub] [1] = none := by
  decide

/-- C3. With venues containing spaces, the ranker orders the year-2020
publication before the year-2021 one inside the conference category: the
comparator parses the second space-separated token of the
"venue year" description (here the venue fragments "3000" and "1000")
rather than the publication's year, refuting year-descending order for
venues with spaces or digits. -/
theorem ranker_misorders_spaced_venues :
    createQuickPickOptions [spacedVenuePubNewer, spacedVenuePubOlder] =
      [{ label := "Conference and Workshop Papers", description := none,
         detail := none, isSeparator := true },
       transformPublication spacedVenuePubOlder,
       transformPublication spacedVenuePubNewer] ∧
    spacedVenuePubNewer.year = "2021" ∧
    spacedVenuePubOlder.year = "2020" ∧
    transformPublication spacedVenuePubOlder ≠
      transformPublication spacedVenuePubNewer := by
  decide

/-- C2 counterexample. For the structured-payload hit with authors
"Ashish Vaswani 83" and "Noam Shazeer" and year 2017, the citation key the
synthesizer emits (on the record the stripping pass hands over) is
"ashish_vaswani_832017", not the claimed "vaswani2017": the key is the full
first-author string with spaces replaced by underscores and the numeric
suffix still attached, because the stripping pass's result is discarded. -/
theorem vaswani_key_not_surname :
    parseDBLPXML vaswaniResult = [vaswaniPub] ∧
    citationKey (stripPassS vaswaniPub).1 = some "ashish_vaswani_832017" ∧
    citationKey (stripPassS vaswaniPub).1 ≠ some "vaswani2017" := by
  decide

/-- C4 counterexample. With a joined author list over 80 characters the
displayed author line abbreviates the first author too: it reads
"A. Vaswani, ..." and does not start with the unabbreviated
"Ashish Vaswani", refuting the claim that the first author is shown
unabbreviated. -/
theorem first_author_is_abbreviated :
    (transformPublication longAuthorsPub).detail =
      some "A. Vaswani, N. Shazeer, N. Parmar, J. Uszkoreit, L. Jones, A. Gomez" ∧
    startsWithChars ("Ashish Vaswani".data)
      ("A. Vaswani, N. Shazeer, N. Parmar, J. Uszkoreit, L. Jones, A. Gomez".data)
      = false := by
  decide

/-- C5 counterexample. For a publication with empty venue and non-empty
pages and doi, the synthesized entry still contains the `booktitle=\x7b\x7d,`
line (venue emitted though empty) and contains no pages or doi field at
all, refuting venue/pages/doi emission-iff-non-empty. -/
theorem entry_fields_not_conditional :
    synthBibtexOpt pagedDoiPub =
      some "@inproceedings\x7bann_bee2020,\n\ttitle=\x7bT\x7d,\n\tauthor=\x7bAnn Bee\x7d,\n\tyear=\x7b2020\x7d,\n\tbooktitle=\x7b\x7d,\n\x7d\n" ∧
    includesChars ("booktitle=\x7b\x7d,".data)
      ("@inproceedings\x7bann_bee2020,\n\ttitle=\x7bT\x7d,\n\tauthor=\x7bAnn Bee\x7d,\n\tyear=\x7b2020\x7d,\n\tbooktitle=\x7b\x7d,\n\x7d\n".data) = true ∧
    includesChars ("pages".data)
      ("@inproceedings\x7bann_bee2020,\n\ttitle=\x7bT\x7d,\n\tauthor=\x7bAnn Bee\x7d,\n\tyear=\x7b2020\x7d,\n\tbooktitle=\x7b\x7d,\n\x7d\n".data) = false ∧
    includesChars ("doi".data)
      ("@inproceedings\x7bann_bee2020,\n\ttitle=\x7bT\x7d,\n\tauthor=\x7bAnn Bee\x7d,\n\tyear=\x7b2020\x7d,\n\tbooktitle=\x7b\x7d,\n\x7d\n".data) = false := by
  decide

/-- C6 counterexample. Stripping the trailing pure-numeric token is not
idempotent: on "A 1 2" one application yields "A 1" and a second
application strips again, yielding "A". -/
theorem strip_not_idempotent :
    stripAuthorSuffix "A 1 2" = "A 1" ∧
    stripAuthorSuffix (stripAuthorSuffix "A 1 2") = "A" ∧
    stripAuthorSuffix (stripAuthorSuffix "A 1 2") ≠ stripAuthorSuffix "A 1 2" := by
  decide

theorem splitOnCh_ne_nil (sep : Char) (l : List Char) : splitOnCh sep l ≠ [] := by
  induction l with
  | nil => simp [splitOnCh]
  | cons c rest ih =>
      simp only [splitOnCh]
      by_cases h : c = sep <;> simp [h]

theorem splitOnCh_no_sep (sep : Char) (l : List Char) (h : sep ∉ l) :
    splitOnCh sep l = [l] := by
  induction l with
  | nil => rfl
  | cons c rest ih =>
      have hc : ¬ c = sep := by
        intro hcs; exact h (hcs ▸ List.mem_cons_self c rest)
      have hr : sep ∉ rest := fun hm => h (List.mem_cons_of_mem c hm)
      simp [splitOnCh, hc, ih hr]

theorem splitOnCh_append_cons (sep : Char) (t rest : List Char) (h : sep ∉ t) :
    splitOnCh sep (t ++ sep :: rest) = t :: splitOnCh sep rest := by
  induction t with
  | nil => simp [splitOnCh]
  | cons c t' ih =>
      have hc : ¬ c = sep := by
        intro hcs; exact h (hcs ▸ List.mem_cons_self c t')
      have ht : sep ∉ t' := fun hm => h (List.mem_cons_of_mem c hm)
      simp [splitOnCh, hc, ih ht]

theorem mem_splitOnCh_no_sep (sep : Char) (l : List Char) (x : List Char)
    (hx : x ∈ splitOnCh sep l) : sep ∉ x := by
  induction l generalizing x with
  | nil =>
      simp only [splitOnCh, List.mem_singleton] at hx
      subst hx; simp
  | cons c rest ih =>
      obtain ⟨t, ts, hts⟩ : ∃ t ts, splitOnCh sep rest = t :: ts := by
        rcases hr : splitOnCh sep rest with _ | ⟨t, ts⟩
        · exact absurd hr (splitOnCh_ne_nil sep rest)
        · exact ⟨t, ts, rfl⟩
      by_cases h : c = sep
      · rw [show splitOnCh sep (c :: rest) = [] :: splitOnCh sep rest by
          simp [splitOnCh, h]] at hx
        rcases List.mem_cons.mp hx with h1 | h2
        · subst h1; simp
        · exact ih x h2
      · rw [show splitOnCh sep (c :: rest) = (c :: t) :: ts by
          simp [splitOnCh, h, hts]] at hx
        rcases List.mem_cons.mp hx with h1 | h2
        · subst h1
          intro hm
          rcases List.mem_cons.mp hm with h3 | h4
          · exact h h3.symm
          · exact ih t (hts ▸ List.mem_cons_self t ts) h4
        · exact ih x (hts ▸ List.mem_cons_of_mem t h2)

theorem popNumericLast_of_not_numeric (l : List (List Char))
    (h : lastTokNumeric l = false) : popNumericLast l = l := by
  induction l with
  | nil => rfl
  | cons t ts ih =>
      rcases ts with _ | ⟨u, ts'⟩
      · simp only [lastTokNumeric] at h
        simp [popNumericLast, h]
      · simp only [lastTokNumeric] at h
        simp only [popNumericLast]
        rw [ih h]

theorem popNumericLast_of_numeric (l : List (List Char))
    (h : lastTokNumeric l = true) : popNumericLast l = l.dropLast := by
  induction l with
  | nil => rfl
  | cons t ts ih =>
      rcases ts with _ | ⟨u, ts'⟩
      · simp only [lastTokNumeric] at h
        simp [popNumericLast, h]
      · simp only [lastTokNumeric] at h
        simp only [popNumericLast, List.dropLast_cons₂]
        rw [ih h]

theorem lastTwoBothNumeric_eq (x y : List Char) (l : List (List Char)) :
    lastTwoBothNumeric (x :: y :: l) =
      (lastTokNumeric ((x :: y :: l).dropLast) && lastTokNumeric (x :: y :: l)) := by
  induction l generalizing x y with
  | nil => simp [lastTwoBothNumeric, lastTokNumeric, List.dropLast]
  | cons z l' ih =>
      have h1 : lastTwoBothNumeric (x :: y :: z :: l') =
          lastTwoBothNumeric (y :: z :: l') := by
        simp [lastTwoBothNumeric]
      rw [h1, ih y z]
      have h2 : (x :: y :: z :: l').dropLast = x :: (y :: z :: l').dropLast := by
        simp [List.dropLast_cons₂]
      rw [h2]
      have h3 : (y :: z :: l').dropLast = y :: (z :: l').dropLast := by
        simp [List.dropLast_cons₂]
      rw [h3]
      simp [lastTokNumeric]

theorem splitOnCh_joinWith (sep : Char) (l : List (List Char)) (h0 : l ≠ [])
    (h : ∀ t ∈ l, sep ∉ t) : splitOnCh sep (joinWith [sep] l) = l := by
  induction l with
  | nil => exact absurd rfl h0
  | cons t ts ih =>
      rcases ts with _ | ⟨u, ts'⟩
      · exact splitOnCh_no_sep sep t (h t (List.mem_cons_self t []))
      · have hjoin : joinWith [sep] (t :: u :: ts') =
            t ++ sep :: joinWith [sep] (u :: ts') := by
          simp [joinWith]
        rw [hjoin, splitOnCh_append_cons sep t _ (h t (List.mem_cons_self t _))]
        congr 1
        exact ih (by simp) (fun x hx => h x (List.mem_cons_of_mem t hx))

/-- Unfolding `stripAuthorSuffix` on a string whose split is the given fragment
list. -/
theorem stripAuthorSuffix_congr (s : String) (t u : List Char)
    (ts : List (List Char)) (hts : splitOnCh ' ' s.data = t :: u :: ts) :
    stripAuthorSuffix s = ⟨joinWith [' '] (popNumericLast (t :: u :: ts))⟩ := by
  unfold stripAuthorSuffix
  rw [hts]

/-- The function `stripAuthorSuffix` fixes any string whose split fragments end in a
non-numeric token: splitting the rejoined string recovers the same
fragments and the pop is skipped again. -/
theorem stripAuthorSuffix_fixes_joined (l : List (List Char))
    (hne : l ≠ []) (hsp : ∀ x ∈ l, ' ' ∉ x)
    (hnum : lastTokNumeric l = false) :
    stripAuthorSuffix ⟨joinWith [' '] l⟩ = ⟨joinWith [' '] l⟩ := by
  have hsplit : splitOnCh ' ' ((⟨joinWith [' '] l⟩ : String).data) = l :=
    splitOnCh_joinWith ' ' l hne hsp
  rcases l with _ | ⟨t, _ | ⟨u, ts⟩⟩
  · exact absurd rfl hne
  · unfold stripAuthorSuffix
    rw [hsplit]
    rfl
  · rw [stripAuthorSuffix_congr _ t u ts hsplit,
      popNumericLast_of_not_numeric _ hnum]

/-- C6 amended. Author-suffix stripping is idempotent for every author
string that does not split into at least three space-separated tokens with
the last two both purely numeric; in that excluded situation one strip
exposes a second numeric token, which a second strip removes. -/
theorem stripAuthorSuffix_idempotent (s : String)
    (h : endsInTwoNumericTokens (splitOnCh ' ' s.data) = false) :
    stripAuthorSuffix (stripAuthorSuffix s) = stripAuthorSuffix s := by
  have hmem : ∀ x ∈ splitOnCh ' ' s.data, ' ' ∉ x :=
    fun x hx => mem_splitOnCh_no_sep ' ' s.data x hx
  rcases hts : splitOnCh ' ' s.data with _ | ⟨t, _ | ⟨u, ts⟩⟩
  · exact absurd hts (splitOnCh_ne_nil ' ' s.data)
  · -- single token: the string passes through and splits back to itself
    have hsp : ' ' ∉ t := hmem t (by rw [hts]; exact List.mem_cons_self t [])
    have h1 : stripAuthorSuffix s = ⟨t⟩ := by
      unfold stripAuthorSuffix
      rw [hts]
    rw [h1]
    have h2 : splitOnCh ' ' ((⟨t⟩ : String).data) = [t] :=
      splitOnCh_no_sep ' ' t hsp
    unfold stripAuthorSuffix
    rw [h2]
  · -- at least two tokens
    have hspL : ∀ x ∈ t :: u :: ts, ' ' ∉ x := by rw [← hts]; exact hmem
    rw [stripAuthorSuffix_congr s t u ts hts]
    by_cases hnum : lastTokNumeric (t :: u :: ts) = true
    · -- the last token is numeric: the strip drops it
      rw [popNumericLast_of_numeric _ hnum]
      have hdl : (t :: u :: ts).dropLast = t :: (u :: ts).dropLast := by
        simp [List.dropLast_cons₂]
      rcases hP : (u :: ts).dropLast with _ | ⟨q, ps⟩
      · -- two tokens in total: a single token remains after the strip
        rw [hdl, hP]
        have hsp : ' ' ∉ t := hspL t (List.mem_cons_self t _)
        have h2 : splitOnCh ' ' ((⟨joinWith [' '] [t]⟩ : String).data) = [t] :=
          splitOnCh_no_sep ' ' t hsp
        unfold stripAuthorSuffix
        rw [h2]
        rfl
      · -- at least two tokens remain: the exposed last token is not numeric
        have hts' : ts ≠ [] := by
          intro hts0
          rw [hts0] at hP
          simp [List.dropLast] at hP
        rcases ts with _ | ⟨v, rest⟩
        · exact absurd rfl hts'
        have hP' : (t :: u :: v :: rest).dropLast = t :: q :: ps := by
          rw [hdl, hP]
        have hlast2 : lastTwoBothNumeric (t :: u :: v :: rest) = false := by
          rw [hts] at h
          exact h
        rw [lastTwoBothNumeric_eq] at hlast2
        rw [hnum, Bool.and_true] at hlast2
        have hnumP : lastTokNumeric (t :: q :: ps) = false := by
          rw [← hP']; exact hlast2
        have hsubset : ∀ x ∈ t :: q :: ps, ' ' ∉ x := by
          intro x hx
          exact hspL x ((List.dropLast_sublist _).subset (hP' ▸ hx))
        rw [hdl, hP]
        exact stripAuthorSuffix_fixes_joined (t :: q :: ps) (by simp)
          hsubset hnumP
    · -- the last token is not numeric: the strip is the identity rejoin
      have hnum' : lastTokNumeric (t :: u :: ts) = false :=
        Bool.eq_false_iff.mpr hnum
      rw [popNumericLast_of_not_numeric _ hnum']
      exact stripAuthorSuffix_fixes_joined (t :: u :: ts) (by simp) hspL hnum'

/-- C6 amended witness: "John Smith 17" has three tokens but only one
trailing numeric token, and stripping it twice equals stripping once. -/
theorem stripAuthorSuffix_idempotent_witness :
    endsInTwoNumericTokens (splitOnCh ' ' ("John Smith 17" : String).data)
        = false ∧
    stripAuthorSuffix (stripAuthorSuffix "John Smith 17") =
      stripAuthorSuffix "John Smith 17" :=
  ⟨by decide, stripAuthorSuffix_idempotent "John Smith 17" (by decide)⟩

/-- C4 amended. When the joined author list exceeds 80 characters the
display form abbreviates every name — the first author included — to
first-initial + ". " + the remaining tokens (computed after the numeric
suffix strip), and the abbreviation exists only in the display strings: the
stored publication record after the transformation is unchanged. -/
theorem display_abbreviates_every_author (p : Publication)
    (h : 80 < (joinWith (", ".data) (p.authors.map String.data)).length) :
    (transformPublicationS p).2 = p ∧
    isAuthorListTooLong p = true ∧
    ∀ a ∈ p.authors, ∀ (t u : List Char) (ts : List (List Char)) (c : Char)
      (cs : List Char) (rest : List (List Char)),
      splitOnCh ' ' a.data = t :: u :: ts →
      popNumericLast (t :: u :: ts) = (c :: cs) :: rest →
      displayAuthor (isAuthorListTooLong p) a =
        ⟨c :: '.' :: ' ' :: joinWith [' '] rest⟩ := by
  have htoo : isAuthorListTooLong p = true := decide_eq_true h
  refine ⟨rfl, htoo, ?_⟩
  intro a _ t u ts c cs rest hsplit hpop
  rw [htoo]
  unfold displayAuthor
  rw [hsplit]
  simp only [hpop, if_true]
  rfl

theorem strData_append (a b : String) : (a ++ b).data = a.data ++ b.data := rfl

theorem jsToLowerChar_ne_newline (c : Char) (h : c ≠ '\n') :
    jsToLowerChar c ≠ '\n' := by
  unfold jsToLowerChar
  cases hfind : lowerPairs.find? (fun q => q.1 = c) with
  | none => simpa using h
  | some q =>
      have hq : q ∈ lowerPairs := List.mem_of_find?_eq_some hfind
      intro hc
      simp only [Option.map_some', Option.getD_some] at hc
      fin_cases hq <;> exact absurd hc (by decide)

theorem newline_not_mem_underscoreStr (s : String) (h : '\n' ∉ s.data) :
    '\n' ∉ (underscoreStr s).data := by
  intro hm
  rcases List.mem_map.mp hm with ⟨c, hc, heq⟩
  by_cases hcs : c = ' '
  · rw [hcs] at heq; exact absurd heq (by decide)
  · rw [if_neg hcs] at heq
    exact h (heq ▸ hc)

theorem newline_not_mem_toLowerStr (s : String) (h : '\n' ∉ s.data) :
    '\n' ∉ (toLowerStr s).data := by
  intro hm
  rcases List.mem_map.mp hm with ⟨c, hc, heq⟩
  exact jsToLowerChar_ne_newline c (fun hc0 => h (hc0 ▸ hc)) heq

theorem mem_joinWith (sep : List Char) (l : List (List Char)) (x : Char)
    (hx : x ∈ joinWith sep l) : x ∈ sep ∨ ∃ t ∈ l, x ∈ t := by
  induction l with
  | nil => simp [joinWith] at hx
  | cons t ts ih =>
      rcases ts with _ | ⟨u, ts'⟩
      · exact Or.inr ⟨t, List.mem_cons_self t [], hx⟩
      · rw [show joinWith sep (t :: u :: ts') =
            t ++ sep ++ joinWith sep (u :: ts') from rfl] at hx
        rcases List.mem_append.mp hx with h1 | h2
        · rcases List.mem_append.mp h1 with h3 | h4
          · exact Or.inr ⟨t, List.mem_cons_self t _, h3⟩
          · exact Or.inl h4
        · rcases ih h2 with h5 | ⟨w, hw, hxw⟩
          · exact Or.inl h5
          · exact Or.inr ⟨w, List.mem_cons_of_mem t hw, hxw⟩

theorem newline_not_mem_authorsJoined (p : Publication)
    (hall : ∀ x ∈ p.authors, '\n' ∉ x.data) :
    '\n' ∉ (authorsJoinedAnd p).data := by
  intro hm
  rcases mem_joinWith (" and ".data) (p.authors.map String.data) '\n' hm with
    h1 | ⟨t, ht, hxt⟩
  · exact absurd h1 (by decide)
  · rcases List.mem_map.mp ht with ⟨x, hx, hxd⟩
    exact hall x hx (hxd ▸ hxt)

/-- C5 amended. For every publication the synthesized entry consists of
exactly seven newline-separated segments in this fixed order: the
`@inproceedings` key line, the title line, the author line (authors joined
with " and "), the year line, the booktitle line (emitted whether or not
the venue is empty), the closing brace, and a final empty segment from the
trailing newline. No pages or doi line exists. The newline-freedom
hypotheses say the record's fields contain no newline, which every record
both parsers build from single-line payload fields satisfies. -/
theorem entry_line_structure (p : Publication) (a : String)
    (rest : List String) (h : p.authors = a :: rest)
    (ht : '\n' ∉ p.title.data) (hy : '\n' ∉ p.year.data)
    (hb : '\n' ∉ p.booktitle.data)
    (hall : ∀ x ∈ p.authors, '\n' ∉ x.data) :
    ∃ s, synthBibtexOpt p = some s ∧
      splitOnCh '\n' s.data =
        [("@inproceedings\x7b".data ++ (toLowerStr (underscoreStr a)).data
            ++ p.year.data ++ [',']),
         ("\ttitle=\x7b".data ++ p.title.data ++ "\x7d,".data),
         ("\tauthor=\x7b".data ++ (authorsJoinedAnd p).data ++ "\x7d,".data),
         ("\tyear=\x7b".data ++ p.year.data ++ "\x7d,".data),
         ("\tbooktitle=\x7b".data ++ p.booktitle.data ++ "\x7d,".data),
         ['\x7d'],
         []] := by
  have hck : citationKey p = some (toLowerStr (underscoreStr a) ++ p.year) := by
    simp [citationKey, h]
  have hkey : '\n' ∉ (toLowerStr (underscoreStr a)).data :=
    newline_not_mem_toLowerStr _
      (newline_not_mem_underscoreStr a (hall a (h ▸ List.mem_cons_self a rest)))
  have hauth : '\n' ∉ (authorsJoinedAnd p).data :=
    newline_not_mem_authorsJoined p hall
  refine ⟨_, by unfold synthBibtexOpt; rw [hck]; rfl, ?_⟩
  have hs :
      ((("@inproceedings\x7b" ++ (toLowerStr (underscoreStr a) ++ p.year)
          ++ ",") ++ "\n" ++
        ("\ttitle=\x7b" ++ p.title ++ "\x7d,") ++ "\n" ++
        ("\tauthor=\x7b" ++ authorsJoinedAnd p ++ "\x7d,") ++ "\n" ++
        ("\tyear=\x7b" ++ p.year ++ "\x7d,") ++ "\n" ++
        ("\tbooktitle=\x7b" ++ p.booktitle ++ "\x7d,") ++ "\n" ++
        "\x7d" ++ "\n") : String).data =
      ("@inproceedings\x7b".data ++ (toLowerStr (underscoreStr a)).data
          ++ p.year.data ++ [','])
        ++ '\n' :: (("\ttitle=\x7b".data ++ p.title.data ++ "\x7d,".data)
        ++ '\n' :: (("\tauthor=\x7b".data ++ (authorsJoinedAnd p).data
            ++ "\x7d,".data)
        ++ '\n' :: (("\tyear=\x7b".data ++ p.year.data ++ "\x7d,".data)
        ++ '\n' :: (("\tbooktitle=\x7b".data ++ p.booktitle.data
            ++ "\x7d,".data)
        ++ '\n' :: (['\x7d'] ++ '\n' :: []))))) := by
    simp only [strData_append, List.append_assoc]
    rfl
  rw [hs]
  rw [splitOnCh_append_cons '\n' _ _ (by
    intro hm
    rcases List.mem_append.mp hm with h1 | h2
    · rcases List.mem_append.mp h1 with h3 | h4
      · rcases List.mem_append.mp h3 with h5 | h6
        · exact absurd h5 (by decide)
        · exact hkey h6
      · exact hy h4
    · exact absurd h2 (by decide))]
  rw [splitOnCh_append_cons '\n' _ _ (by
    intro hm
    rcases List.mem_append.mp hm with h1 | h2
    · rcases List.mem_append.mp h1 with h3 | h4
      · exact absurd h3 (by decide)
      · exact ht h4
    · exact absurd h2 (by decide))]
  rw [splitOnCh_append_cons '\n' _ _ (by
    intro hm
    rcases List.mem_append.mp hm with h1 | h2
    · rcases List.mem_append.mp h1 with h3 | h4
      · exact absurd h3 (by decide)
      · exact hauth h4
    · exact absurd h2 (by decide))]
  rw [splitOnCh_append_cons '\n' _ _ (by
    intro hm
    rcases List.mem_append.mp hm with h1 | h2
    · rcases List.mem_append.mp h1 with h3 | h4
      · exact absurd h3 (by decide)
      · exact hy h4
    · exact absurd h2 (by decide))]
  rw [splitOnCh_append_cons '\n' _ _ (by
    intro hm
    rcases List.mem_append.mp hm with h1 | h2
    · rcases List.mem_append.mp h1 with h3 | h4
      · exact absurd h3 (by decide)
      · exact hb h4
    · exact absurd h2 (by decide))]
  rw [splitOnCh_append_cons '\n' ['\x7d'] [] (by decide)]
  rfl

/-- C5 amended witness: the entry for the empty-venue publication with
non-empty pages and doi splits into exactly the seven expected segments. -/
theorem entry_line_structure_witness :
    ∃ s, synthBibtexOpt pagedDoiPub = some s ∧
      splitOnCh '\n' s.data =
        [("@inproceedings\x7b".data
            ++ (toLowerStr (underscoreStr "Ann Bee")).data
            ++ ("2020" : String).data ++ [',']),
         ("\ttitle=\x7b".data ++ ("T" : String).data ++ "\x7d,".data),
         ("\tauthor=\x7b".data ++ (authorsJoinedAnd pagedDoiPub).data
            ++ "\x7d,".data),
         ("\tyear=\x7b".data ++ ("2020" : String).data ++ "\x7d,".data),
         ("\tbooktitle=\x7b".data ++ ("" : String).data ++ "\x7d,".data),
         ['\x7d'],
         []] :=
  entry_line_structure pagedDoiPub "Ann Bee" [] (by decide) (by decide)
    (by decide) (by decide) (by decide)

/-- C2 amended. The citation key of the record the stripping pass hands to
synthesis is the stored first author — numeric disambiguation suffix
retained, because the pass discards its stripped copy — with every space
replaced by an underscore, lowercased, followed immediately by the year. -/
theorem citation_key_is_underscored_author (pub : Publication) (a : String)
    (rest : List String) (h : pub.authors = a :: rest) :
    citationKey (stripPassS pub).1 =
      some (toLowerStr (underscoreStr a) ++ pub.year) := by
  simp [citationKey, stripPassS, h]

/-- C2 amended witness: applied to the publication parsed from the
round-trip payload the key is "ashish_vaswani_832017". -/
theorem citation_key_is_underscored_author_witness :
    citationKey (stripPassS vaswaniPub).1 = some "ashish_vaswani_832017" := by
  have h := citation_key_is_underscored_author vaswaniPub "Ashish Vaswani 83"
    ["Noam Shazeer"] (by decide)
  rw [h]
  decide

/-- C7. When the parsed structured payload has no hits array, an empty hits
array, or a first hits object with an absent or empty hit list, the payload
parser returns the empty sequence (not an error), the ranker on that empty
input returns the empty display list, and every selection the UI can make
from the empty list (only the empty one) ends the session with no entry
handed to the sink. -/
theorem empty_hits_yield_empty_session (r : DblpResult)
    (h : r.hits = none ∨ r.hits = some [] ∨
      ∃ h0 hs, r.hits = some (h0 :: hs) ∧
        (h0.hit = none ∨ h0.hit = some [])) :
    parseDBLPXML r = [] ∧
    createQuickPickOptions (parseDBLPXML r) = [] ∧
    ∀ sels : List Nat,
      (∀ i ∈ sels, i < (createQuickPickOptions (parseDBLPXML r)).length) →
      searchQueryInsertions (parseDBLPXML r) sels = some [] := by
  have hp : parseDBLPXML r = [] := by
    rcases h with h1 | h1 | ⟨h0, hs, h3, h4⟩
    · simp [parseDBLPXML, h1]
    · simp [parseDBLPXML, h1]
    · rcases h4 with h4 | h4 <;> simp [parseDBLPXML, h3, h4]
  have hq : createQuickPickOptions ([] : List Publication) = [] := rfl
  refine ⟨hp, by rw [hp]; exact hq, ?_⟩
  intro sels hsels
  rw [hp]
  rcases sels with _ | ⟨i, is⟩
  · rfl
  · have hlen := hsels i (List.mem_cons_self i is)
    rw [hp, hq] at hlen
    exact absurd hlen (by simp)

/-- C7 witness: a response with no hits array ends the session quietly. -/
theorem empty_hits_yield_empty_session_witness :
    parseDBLPXML emptyDblpResult = [] ∧
    createQuickPickOptions (parseDBLPXML emptyDblpResult) = [] ∧
    searchQueryInsertions (parseDBLPXML emptyDblpResult) [] = some [] := by
  have h := empty_hits_yield_empty_session emptyDblpResult (Or.inl rfl)
  exact ⟨h.1, h.2.1, h.2.2 [] (by simp)⟩

/-- C8. On any publication satisfying the data-model invariants (non-empty
title, at least one author, four-digit year) citation synthesis is total
and deterministic: the entry exists (the first-author access is defined),
and synthesizing the record the stripping pass hands over yields the same
bytes as synthesizing the record directly. -/
theorem synthesis_total_and_deterministic (p : Publication)
    (h1 : p.title ≠ "") (h2 : p.authors ≠ [])
    (h3 : isFourDigitYear p.year = true) :
    ∃ s, synthBibtexOpt p = some s ∧
      synthBibtexOpt (stripPassS p).1 = some s := by
  rcases hp : p.authors with _ | ⟨a, rest⟩
  · exact absurd hp h2
  have hck : citationKey p = some (toLowerStr (underscoreStr a) ++ p.year) := by
    simp [citationKey, hp]
  refine ⟨("@inproceedings\x7b" ++ (toLowerStr (underscoreStr a) ++ p.year)
      ++ ",") ++ "\n" ++
    ("\ttitle=\x7b" ++ p.title ++ "\x7d,") ++ "\n" ++
    ("\tauthor=\x7b" ++ authorsJoinedAnd p ++ "\x7d,") ++ "\n" ++
    ("\tyear=\x7b" ++ p.year ++ "\x7d,") ++ "\n" ++
    ("\tbooktitle=\x7b" ++ p.booktitle ++ "\x7d,") ++ "\n" ++
    "\x7d" ++ "\n", ?_, ?_⟩
  · unfold synthBibtexOpt
    rw [hck]
    rfl
  · unfold synthBibtexOpt
    rw [show (stripPassS p).1 = p from rfl, hck]
    rfl

/-- C8 witness: the invariant-satisfying conference publication
synthesizes, identically through the stripping pass. -/
theorem synthesis_total_and_deterministic_witness :
    ∃ s, synthBibtexOpt confPub = some s ∧
      synthBibtexOpt (stripPassS confPub).1 = some s :=
  synthesis_total_and_deterministic confPub (by decide) (by decide) (by decide)

/-- C9. No pipeline stage after parsing mutates the stored records: the
ranking stage returns the publication store unchanged, the per-record
display transformation leaves the record intact, the pre-synthesis
stripping pass returns the original record (its stripped list is
discarded), and therefore the entry rendered for every selection is the
synthesis of the unmodified stored publication, numeric author suffixes
included. -/
theorem pipeline_preserves_stored_records (pubs : List Publication)
    (p : Publication) (sels : List Nat) :
    (createQuickPickOptionsS pubs).2 = pubs ∧
    (transformPublicationS p).2 = p ∧
    (stripPassS p).1 = p ∧
    searchQueryInsertions pubs sels =
      (if sels.isEmpty then some []
       else sels.mapM (fun pos => (pubs[pos]?).bind synthBibtexOpt)) :=
  ⟨rfl, rfl, rfl, rfl⟩

theorem find4Digits_ne_nil : ∀ (l y : List Char),
    find4Digits l = some y → y ≠ []
  | a :: b :: c :: d :: rest, y, h => by
      by_cases hd : (a.isDigit && b.isDigit && c.isDigit && d.isDigit) = true
      · unfold find4Digits at h
        rw [if_pos hd] at h
        injection h with h1
        rw [← h1]
        simp
      · unfold find4Digits at h
        rw [if_neg hd] at h
        exact find4Digits_ne_nil (b :: c :: d :: rest) y h
  | [], y, h => by simp [find4Digits] at h
  | [a], y, h => by simp [find4Digits] at h
  | [a, b], y, h => by simp [find4Digits] at h
  | [a, b, c], y, h => by simp [find4Digits] at h

/-- C10. The HTML-scrape parser can never build a publication with an empty
author array: splitting on "," yields at least one fragment for every
string, so every produced publication has at least one author and the
zero-author drop clause can never be the reason a block is skipped;
moreover a block with a non-empty title, an empty segment before the first
"-", and four consecutive digits somewhere in its byline produces a
publication whose single author entry is the empty string. -/
theorem scholar_parser_author_guarantees :
    (∀ s : String, 1 ≤ (splitOnCh ',' s.data).length) ∧
    (∀ (b : ScholarBlock) (pub : Publication),
      parseScholarBlock b = some pub → 1 ≤ pub.authors.length) ∧
    (∀ b : ScholarBlock, b.titleText ≠ "" →
      (splitOnCh '-' b.bylineText.data).headD [] = [] →
      ∀ y, find4Digits b.bylineText.data = some y →
        ∃ pub, parseScholarBlock b = some pub ∧ pub.authors = [""]) := by
  refine ⟨?_, ?_, ?_⟩
  · intro s
    exact List.length_pos.mpr (splitOnCh_ne_nil ',' s.data)
  · intro b pub hpb
    unfold parseScholarBlock at hpb
    dsimp only [] at hpb
    split at hpb
    · exact absurd hpb (by simp)
    · injection hpb with h1
      rw [← h1]
      simp only [List.length_map]
      exact List.length_pos.mpr (splitOnCh_ne_nil ',' _)
  · intro b hb htail y hy
    have hynil : y ≠ [] := find4Digits_ne_nil _ _ hy
    refine ⟨{ title := b.titleText
              authors := [""]
              year := ⟨y⟩
              booktitle := ⟨((splitOnCh '-' b.bylineText.data).drop 1).headD []⟩
              pages := ""
              doi := b.doiHref.getD ""
              type := "" }, ?_, rfl⟩
    unfold parseScholarBlock
    dsimp only []
    rw [htail, hy]
    simp only [Option.map_some', Option.getD_some]
    rw [if_neg]
    · rfl
    · intro hcase
      rcases hcase with h1 | h2 | h3
      · exact hb h1
      · rw [show splitOnCh ',' ([] : List Char) = [[]] from rfl] at h2
        simp at h2
      · exact hynil (congrArg String.data h3)

/-- C10 witness: a comma split is never empty, and the empty-byline block
parses to a publication whose single author is the empty string. -/
theorem scholar_parser_author_guarantees_witness :
    1 ≤ (splitOnCh ',' ("" : String).data).length ∧
    (∃ pub, parseScholarBlock emptyBylineBlock = some pub ∧
      pub.authors = [""]) :=
  ⟨scholar_parser_author_guarantees.1 "",
   scholar_parser_author_guarantees.2.2 emptyBylineBlock (by decide)
     (by decide) ("2020".data) (by decide)⟩

/-- C4 amended witness: on the long-author publication the transformation
leaves the stored record unchanged while the first author is displayed as
"A. Vaswani". -/
theorem display_abbreviates_every_author_witness :
    (transformPublicationS longAuthorsPub).2 = longAuthorsPub ∧
    displayAuthor (isAuthorListTooLong longAuthorsPub) "Ashish Vaswani" =
      "A. Vaswani" := by
  have h := display_abbreviates_every_author longAuthorsPub (by decide)
  refine ⟨h.1, ?_⟩
  have h3 := h.2.2 "Ashish Vaswani" (by decide) ("Ashish".data)
    ("Vaswani".data) [] 'A' ("shish".data) [("Vaswani".data)]
    (by decide) (by decide)
  rw [h3]
  decide
